import Mathlib

/-!
Verification of the sparsity-tutorials sim-TEE core: the SNI passthrough
proxy (`host/host_proxy.py`), the worker supervisor and relay
(`util/server.py`), the enclave `/talk` and `/attestation` handlers
(`tee-tee-tls/.../enclave/app.py`), and the mock attestation document
(`agent-mcp/.../enclave/attestation.py`).

Bytes are modelled as `List Nat` (each element a byte value).  Python
`data[i]` (which raises `IndexError` out of range, caught by the
surrounding `try` and turned into `None`) is modelled as `data[i]?`
combined with `Option.bind`; Python slices `data[a:b]` (which silently
clamp) are modelled by `pySlice`; `int.from_bytes(_, 'big')` is
`int_from_bytes`.  Python `bytes.decode()` (strict UTF-8) is modelled by
`pyDecode`: it validates the bytes as UTF-8 and returns them unchanged
(hostnames are kept as raw byte lists), and returns `none` on invalid
UTF-8, modelling the `UnicodeDecodeError` that the surrounding `except`
turns into `None`.
-/

namespace Sparsity

/-- Python `int.from_bytes(l, 'big')`: big-endian value of a byte list
(empty list gives 0, exactly as in Python). -/
def int_from_bytes (l : List Nat) : Nat :=
  l.foldl (fun acc b => acc * 256 + b) 0

/-- Python slice `data[a:b]` for `0 ≤ a, b`: clamps silently, never raises. -/
def pySlice (data : List Nat) (a b : Nat) : List Nat :=
  (data.drop a).take (b - a)

/-- Whether a byte is a UTF-8 continuation byte (0x80-0xBF). -/
def utf8Cont (b : Nat) : Bool :=
  decide (0x80 ≤ b ∧ b ≤ 0xBF)

/-- Strict UTF-8 validity of a byte sequence, as enforced by Python's
`bytes.decode()` (RFC 3629): ASCII bytes stand alone; leads 0xC2-0xDF
take one continuation byte; leads 0xE0/0xE1-0xEC/0xED/0xEE-0xEF take two
with the first restricted to 0xA0-0xBF after 0xE0 (no overlong) and to
0x80-0x9F after 0xED (no surrogates); leads 0xF0/0xF1-0xF3/0xF4 take
three with the first restricted to 0x90-0xBF after 0xF0 and to 0x80-0x8F
after 0xF4 (no overlong, max U+10FFFF); bytes 0x80-0xC1 and 0xF5 upward
never lead. -/
def validUtf8 : List Nat → Bool
  | [] => true
  | b :: rest =>
    if b ≤ 0x7F then validUtf8 rest
    else if 0xC2 ≤ b ∧ b ≤ 0xDF then
      match rest with
      | c1 :: rest2 => if utf8Cont c1 then validUtf8 rest2 else false
      | [] => false
    else if b = 0xE0 then
      match rest with
      | c1 :: c2 :: rest2 =>
        if (0xA0 ≤ c1 ∧ c1 ≤ 0xBF) ∧ utf8Cont c2 then validUtf8 rest2 else false
      | _ => false
    else if (0xE1 ≤ b ∧ b ≤ 0xEC) ∨ (0xEE ≤ b ∧ b ≤ 0xEF) then
      match rest with
      | c1 :: c2 :: rest2 =>
        if utf8Cont c1 ∧ utf8Cont c2 then validUtf8 rest2 else false
      | _ => false
    else if b = 0xED then
      match rest with
      | c1 :: c2 :: rest2 =>
        if (0x80 ≤ c1 ∧ c1 ≤ 0x9F) ∧ utf8Cont c2 then validUtf8 rest2 else false
      | _ => false
    else if b = 0xF0 then
      match rest with
      | c1 :: c2 :: c3 :: rest2 =>
        if (0x90 ≤ c1 ∧ c1 ≤ 0xBF) ∧ utf8Cont c2 ∧ utf8Cont c3 then validUtf8 rest2
        else false
      | _ => false
    else if 0xF1 ≤ b ∧ b ≤ 0xF3 then
      match rest with
      | c1 :: c2 :: c3 :: rest2 =>
        if utf8Cont c1 ∧ utf8Cont c2 ∧ utf8Cont c3 then validUtf8 rest2 else false
      | _ => false
    else if b = 0xF4 then
      match rest with
      | c1 :: c2 :: c3 :: rest2 =>
        if (0x80 ≤ c1 ∧ c1 ≤ 0x8F) ∧ utf8Cont c2 ∧ utf8Cont c3 then validUtf8 rest2
        else false
      | _ => false
    else false

/-- Python `bytes.decode()` with the default strict UTF-8 codec: on
valid UTF-8 it succeeds (the model keeps the hostname as its raw bytes);
on invalid UTF-8 it raises `UnicodeDecodeError`, which the caller's
`except Exception` turns into `None` — modelled as `none`. -/
def pyDecode (l : List Nat) : Option (List Nat) :=
  if validUtf8 l then some l else none

/-- The `ext_type == 0x00` branch of the extension loop in
`HostProxyHandler.extract_sni` (host_proxy.py lines 83-90): read
`ext_data[2]` (an `IndexError` aborts to `None`), abort (`break`, hence
`None`) when the name type is not 0, otherwise read the 2-byte name
length and decode the (silently clamped) slice of that many name bytes
— a `UnicodeDecodeError` from the decode also aborts to `None`.
The unused `list_len = int.from_bytes(ext_data[0:2])` read never raises
and is omitted. -/
def sniExtract (extData : List Nat) : Option (List Nat) :=
  (extData[2]?).bind fun nameType =>
    if nameType = 0 then
      let nameLen := int_from_bytes (pySlice extData 3 5)
      pyDecode (pySlice extData 5 (5 + nameLen))
    else none

/-- The `while idx + 4 <= end` extension loop of
`HostProxyHandler.extract_sni` (host_proxy.py lines 78-92), with an
explicit fuel argument so the recursion is structural.  Each iteration
advances `idx` by at least 4 while requiring `idx + 4 ≤ endP`, so a fuel
of `endP - idx` can never be exhausted before the guard fails
(`extLoopGo_fuel_irrel` below makes this precise). -/
def extLoopGo (data : List Nat) (endP : Nat) : Nat → Nat → Option (List Nat)
  | _, 0 => none
  | idx, fuel + 1 =>
    if idx + 4 ≤ endP then
      let extType := int_from_bytes (pySlice data idx (idx + 2))
      let extLen := int_from_bytes (pySlice data (idx + 2) (idx + 4))
      let extData := pySlice data (idx + 4) (idx + 4 + extLen)
      if extType = 0 then
        sniExtract extData
      else
        extLoopGo data endP (idx + 4 + extLen) (fuel)
    else none

/-- The extension loop of `extract_sni`, entered with adequate fuel. -/
def extLoop (data : List Nat) (idx endP : Nat) : Option (List Nat) :=
  extLoopGo data endP idx (endP - idx)

/-- Embedding of `HostProxyHandler.extract_sni` (host_proxy.py lines 42-97).  Returns
the server-name bytes, or `none` whenever the Python code returns `None`
(including every caught exception).  Offsets: record header 5 bytes,
handshake type at 5, handshake length 3 bytes, client_version 2 bytes,
random 32 bytes, so the session-id length byte sits at index 43. -/
def extract_sni (data : List Nat) : Option (List Nat) :=
  if data.length < 5 then none
  else
    (data[0]?).bind fun b0 =>
      if b0 = 0x16 then
        (data[5]?).bind fun hsType =>
          if hsType = 0x01 then
            (data[43]?).bind fun sidLen =>
              let i1 := 43 + 1 + sidLen
              let csLen := int_from_bytes (pySlice data i1 (i1 + 2))
              let i2 := i1 + 2 + csLen
              (data[i2]?).bind fun compLen =>
                let i3 := i2 + 1 + compLen
                let extTotal := int_from_bytes (pySlice data i3 (i3 + 2))
                let i4 := i3 + 2
                extLoop data i4 (i4 + extTotal)
          else none
      else none

/-- Big-endian 2-byte encoding of a length or type field.  Used by the
well-formed ClientHello builder below. -/
def enc2 (n : Nat) : List Nat :=
  [n / 256, n % 256]

/-- Modelled from the spec: one TLS extension record as described in
spec section 4.3 step 8 — a 2-byte type, a 2-byte length, and that many
bytes of payload. -/
def mkExt (ty : Nat) (payload : List Nat) : List Nat :=
  enc2 ty ++ (enc2 payload.length ++ payload)

/-- Concatenation of extension records from (type, payload) pairs. -/
def mkExts : List (Nat × List Nat) → List Nat
  | [] => []
  | (t, p) :: rest => mkExt t p ++ mkExts rest

/-- Modelled from the spec: the payload of a well-formed SNI extension
(spec section 4.3 step 9) — a 2-byte server-name-list length, a name-type
byte 0 (host name), a 2-byte name length, then the hostname bytes. -/
def mkSniPayload (host : List Nat) : List Nat :=
  enc2 (host.length + 3) ++ (0 :: (enc2 host.length ++ host))

/-- Modelled from the spec: a well-formed TLS ClientHello record (spec
section 4.3 steps 2-8) — content type 0x16, 4 further record-header
bytes, handshake type 0x01, a 3-byte handshake length, a 2-byte
protocol version, a 32-byte random, a length-prefixed session id, a
length-prefixed cipher-suite list, a length-prefixed
compression-methods list, and the length-prefixed extensions block. -/
def mkClientHello (rv hl ver rand sid cs comp exts : List Nat) : List Nat :=
  0x16 :: (rv ++ (0x01 :: (hl ++ (ver ++ (rand ++ (sid.length ::
    (sid ++ (enc2 cs.length ++ (cs ++ (comp.length ::
      (comp ++ (enc2 exts.length ++ exts))))))))))))

/-- Outcome of `HostProxyHandler.handle_connection` (host_proxy.py lines
9-40) on one accepted connection, as a function of the first read
(`msg_peek`).  `closedNoData`: the first read returned zero bytes, the
inbound writer is closed and the handler returns.  `closedNoSni`:
`extract_sni` returned `None`, the inbound writer is closed and the
handler returns.  `forwarded host port firstWrite`: exactly one outbound
connection was opened to `(host, port)`, `firstWrite` was written to it
before any other bytes, and then the two `pipe` relays were started. -/
inductive ProxyOutcome
  | closedNoData : ProxyOutcome
  | closedNoSni : ProxyOutcome
  | forwarded (host : List Nat) (port : Nat) (firstWrite : List Nat) : ProxyOutcome
deriving DecidableEq

/-- Embedding of `HostProxyHandler.handle_connection`: peek, bail out on empty read,
bail out when no SNI is found, otherwise dial `(sni, 443)` and replay the
peeked bytes before relaying. -/
def handle_connection (msg_peek : List Nat) : ProxyOutcome :=
  if msg_peek.isEmpty then ProxyOutcome.closedNoData
  else
    match extract_sni msg_peek with
    | none => ProxyOutcome.closedNoSni
    | some sni => ProxyOutcome.forwarded sni 443 msg_peek

/-- The outbound dial performed by a proxy outcome, if any. -/
def outboundDial : ProxyOutcome → Option (List Nat × Nat)
  | ProxyOutcome.forwarded host port _ => some (host, port)
  | _ => none

/-- Outcome of `APP.talk_to_ai` (tee-tee-tls enclave app.py lines 73-81)
restricted to the nonce-validation prefix.  `errorResponse msg`: the
handler returned `JSONResponse({"error": msg})` without touching the
ciphertext.  `decryptionAttempted pk nonce data`: the handler went on to
call `self.key.decrypt(public_key, nonce, data)` (everything after the
decrypt call is outside this model). -/
inductive TalkOutcome
  | errorResponse (msg : String) : TalkOutcome
  | decryptionAttempted (publicKey nonce data : List Nat) : TalkOutcome
deriving DecidableEq

/-- Embedding of `APP.talk_to_ai` up to and including the decision to decrypt: the
hex fields are modelled as already-decoded byte lists; a nonce of fewer
than 8 bytes is rejected before any decryption. -/
def talk_to_ai (nonce publicKey data : List Nat) : TalkOutcome :=
  if nonce.length < 8 then
    TalkOutcome.errorResponse "invalid nonce, must be at least 8 characters long"
  else
    TalkOutcome.decryptionAttempted publicKey nonce data

/-- Errno values named in `Handler.pipe` (util/server.py lines 47-52). -/
def ENOTCONN : Nat := 107

/-- Errno 104, connection reset by peer. -/
def ECONNRESET : Nat := 104

/-- Errno 32, broken pipe. -/
def EPIPE : Nat := 32

/-- One event produced by `await reader.read(4096)` inside
`Handler.pipe`: a chunk of bytes (the empty chunk is end-of-stream),
an `asyncio.CancelledError`, a `ConnectionResetError`, or an `OSError`
with the given errno. -/
inductive ReadEvent
  | chunk (data : List Nat) : ReadEvent
  | cancelled : ReadEvent
  | connReset : ReadEvent
  | osError (errno : Nat) : ReadEvent
deriving DecidableEq

/-- Result of `Handler.pipe` on a script of read events.
`blocked written`: the script was exhausted with the loop still awaiting
the next read (no termination happened).  `closed written reraised`:
the `finally` block ran — `writer.close()` / `wait_closed()` were
attempted with any close error swallowed — after writing `written`, and
`reraised = some e` exactly when the `OSError` with errno `e` was
re-raised past the handler. -/
inductive PipeOutcome
  | blocked (written : List Nat) : PipeOutcome
  | closed (written : List Nat) (reraised : Option Nat) : PipeOutcome
deriving DecidableEq

/-- The `finally` block of `Handler.pipe` (util/server.py lines 55-60):
closing the writer, with any exception raised by the close itself
(`closeRaises = true`) swallowed by the inner `try/except Exception`,
so the outcome never depends on it and never masks `reraised`. -/
def runFinally (_closeRaises : Bool) (written : List Nat) (reraised : Option Nat) : PipeOutcome :=
  PipeOutcome.closed written reraised

/-- Embedding of `Handler.pipe` (util/server.py lines 36-60): read chunks and forward
them until end-of-stream; `CancelledError` and `ConnectionResetError`
end the relay silently; an `OSError` whose errno is `ENOTCONN`,
`ECONNRESET` or `EPIPE` ends it silently, any other `OSError` is
re-raised; the `finally` close always runs. -/
def pipeRun (closeRaises : Bool) : List ReadEvent → List Nat → PipeOutcome
  | [], written => PipeOutcome.blocked written
  | ReadEvent.chunk d :: rest, written =>
    if d.isEmpty then runFinally closeRaises written none
    else pipeRun closeRaises rest (written ++ d)
  | ReadEvent.cancelled :: _, written => runFinally closeRaises written none
  | ReadEvent.connReset :: _, written => runFinally closeRaises written none
  | ReadEvent.osError e :: _, written =>
    if e = ENOTCONN ∨ e = ECONNRESET ∨ e = EPIPE then runFinally closeRaises written none
    else runFinally closeRaises written (some e)

/-- Socket family chosen by `Server.__init__` (util/server.py lines
73-80). -/
inductive SockFamily
  | af_inet : SockFamily
  | af_vsock : SockFamily
deriving DecidableEq

/-- The configuration state established by `Server.__init__`. -/
structure ServerConfig where
  server_port : Nat
  vsock : Bool
  family : SockFamily
  process_num : Nat
deriving DecidableEq

/-- Embedding of `Server.__init__` (util/server.py lines 70-97): in vsock mode the
family is `AF_VSOCK` and `process_num` is forced to 1; otherwise the
family is `AF_INET` and the configured `process_num` is kept. -/
def serverInit (server_port : Nat) (process_num : Nat) (vsock : Bool) : ServerConfig :=
  if vsock then
    { server_port := server_port, vsock := true,
      family := SockFamily.af_vsock, process_num := 1 }
  else
    { server_port := server_port, vsock := false,
      family := SockFamily.af_inet, process_num := process_num }

/-- A worker process as spawned by `Server.start_one_worker`
(util/server.py lines 114-119): its pid and the listening-socket handle
it received through `send_handle(self.parent_conn, self.server.fileno(),
p.pid)`. -/
structure SpawnedWorker where
  pid : Nat
  recvHandle : Nat
deriving DecidableEq

/-- Embedding of `Server.start_one_worker`: append a new process to `self.processes`
and send it the shared listening handle.  The state is the process list
together with a fresh-pid counter. -/
def start_one_worker (fileno : Nat) (st : List SpawnedWorker × Nat) :
    List SpawnedWorker × Nat :=
  (st.1 ++ [{ pid := st.2, recvHandle := fileno }], st.2 + 1)

/-- The `for _ in range(self.process_num)` loop of `Server.start_workers`
(util/server.py lines 110-112). -/
def startWorkersGo : Nat → Nat → List SpawnedWorker × Nat → List SpawnedWorker × Nat
  | 0, _, st => st
  | n + 1, fileno, st => startWorkersGo n fileno (start_one_worker fileno st)

/-- Embedding of `Server.start_workers` starting from an empty `self.processes`. -/
def start_workers (cfg : ServerConfig) (fileno : Nat) : List SpawnedWorker :=
  (startWorkersGo cfg.process_num fileno ([], 0)).1

/-- A worker as seen by `Server.monitor_workers`: its pid and whether
`p.is_alive()` reports it alive. -/
structure WorkerProc where
  pid : Nat
  alive : Bool
deriving DecidableEq

/-- A replacement worker created by `Server.start_one_worker`: freshly
started, hence alive. -/
def spawnWorker (pid : Nat) : WorkerProc :=
  { pid := pid, alive := true }

/-- One sweep of the `for i, p in enumerate(self.processes)` loop of
`Server.monitor_workers` (util/server.py lines 124-129), with an
explicit fuel argument (the iteration count of the `enumerate` iterator
over the mutated list).  `running i` is the value of the mutable
`self.running` flag at the moment iteration `i` performs its check —
modelling that a signal handler may flip the flag between iterations.
On detecting a dead worker while `running` is true, the worker is
removed with `self.processes.pop(i)` and exactly one replacement is
appended by `self.start_one_worker()`; the loop then proceeds to index
`i + 1` (so the entry shifted into slot `i` by the pop is not examined
until the next sweep, exactly as in the Python code). -/
def monitorGo (running : Nat → Bool) : Nat → List WorkerProc → Nat → Nat → List WorkerProc
  | 0, procs, _, _ => procs
  | fuel + 1, procs, i, fresh =>
    if h : i < procs.length then
      let p := procs.get ⟨i, h⟩
      if p.alive = false ∧ running i = true then
        monitorGo running fuel (procs.eraseIdx i ++ [spawnWorker fresh]) (i + 1) (fresh + 1)
      else
        monitorGo running fuel procs (i + 1) fresh
    else procs

/-- One full monitor sweep over the current roster.  The initial fuel is
the roster length: each iteration preserves the length (a pop is always
paired with an append), so the `enumerate` iterator performs exactly
`procs.length` iterations. -/
def monitorPass (running : Nat → Bool) (procs : List WorkerProc) (fresh : Nat) :
    List WorkerProc :=
  monitorGo running procs.length procs 0 fresh

/-- Embedding of `MockFixedKeyManager.generate_attestation` (agent-mcp
workplace/enclave/attestation.py lines 63-67): the returned dict, as an
ordered list of (field name, field bytes) pairs.  The hex encoding of
the values is abstracted away; the field names are exactly those of the
Python dict literal. -/
def mock_generate_attestation (nonce public_key_der : List Nat) :
    List (String × List Nat) :=
  [("nonce", nonce), ("public_key", public_key_der)]

/-- The JSON body returned by `APP.attestation` (tee-tee-tls enclave
app.py lines 62-71): `mock = none` means the `"mock"` key is absent from
the response, `mock = some true` means `"mock": True` is present. -/
structure AttestationResponse where
  attestation_doc : List (String × List Nat)
  mock : Option Bool
deriving DecidableEq

/-- Embedding of `APP.attestation`: in vsock (hardware) mode the response carries only
`attestation_doc`; otherwise it additionally carries `mock: True`. -/
def attestation_route (vsock : Bool) (doc : List (String × List Nat)) :
    AttestationResponse :=
  if vsock then { attestation_doc := doc, mock := none }
  else { attestation_doc := doc, mock := some true }

/-- Concrete hostname bytes, `example.com`. -/
def goodHost : List Nat := [101, 120, 97, 109, 112, 108, 101, 46, 99, 111, 109]

/-- A concrete well-formed ClientHello whose single extension is an SNI
extension carrying `goodHost`. -/
def goodHello : List Nat :=
  mkClientHello [3, 1, 0, 100] [0, 0, 96] [3, 3] (List.replicate 32 7) [] [19, 1] [0]
    (mkExt 0 (mkSniPayload goodHost))

/-- A 59-byte input whose declared extensions-total length (200),
SNI extension-entry length (50) and server-name length (100) all run
past the end of the data, but whose bytes up to the truncation point
parse as an SNI extension carrying one name byte, 97. -/
def sniTruncInput : List Nat :=
  [22, 3, 1, 0, 54, 1, 0, 0, 50, 3, 3] ++ List.replicate 32 0 ++
    [0, 0, 0, 0, 0, 200, 0, 0, 0, 50, 0, 9, 0, 0, 100, 97]

/-! Helper lemmas about the byte-level primitives. -/

theorem length_enc2 (n : Nat) : (enc2 n).length = 2 := rfl

theorem int_from_bytes_enc2 (n : Nat) : int_from_bytes (enc2 n) = n := by
  simp only [int_from_bytes, enc2, List.foldl_cons, List.foldl_nil]
  omega

theorem drop_at {α : Type} (data pre rest : List α) (idx off : Nat)
    (h : data.drop idx = pre ++ rest) (hpre : pre.length = off) :
    data.drop (idx + off) = rest := by
  rw [← List.drop_drop, h, List.drop_left' hpre]

theorem slice_at {data pre rest : List Nat} (idx k : Nat)
    (h : data.drop idx = pre ++ rest) (hpre : pre.length = k) :
    pySlice data idx (idx + k) = pre := by
  unfold pySlice
  rw [Nat.add_sub_cancel_left, h, List.take_left' hpre]

theorem byte_at {α : Type} {data t : List α} {a : α} (idx : Nat)
    (h : data.drop idx = a :: t) : data[idx]? = some a := by
  have h0 : (data.drop idx)[0]? = some a := by
    rw [h]
    simp
  rw [List.getElem?_drop] at h0
  simpa using h0

theorem length_ge_of_byte_at {α : Type} {data : List α} {a : α} {idx : Nat}
    (h : data[idx]? = some a) : idx < data.length := by
  by_contra hc
  rw [List.getElem?_eq_none (by omega)] at h
  exact Option.noConfusion h

/-! Unfolding lemmas for the extension loop. -/

theorem extLoopGo_fuel_irrel (data : List Nat) (endP : Nat) :
    ∀ f1 f2 idx, endP - idx ≤ f1 → endP - idx ≤ f2 →
      extLoopGo data endP idx f1 = extLoopGo data endP idx f2 := by
  intro f1
  induction f1 with
  | zero =>
    intro f2 idx h1 h2
    cases f2 with
    | zero => rfl
    | succ g =>
      simp only [extLoopGo]
      rw [if_neg (by omega)]
  | succ f ih =>
    intro f2 idx h1 h2
    cases f2 with
    | zero =>
      simp only [extLoopGo]
      rw [if_neg (by omega)]
    | succ g =>
      simp only [extLoopGo]
      by_cases hguard : idx + 4 ≤ endP
      · rw [if_pos hguard, if_pos hguard]
        by_cases hty : int_from_bytes (pySlice data idx (idx + 2)) = 0
        · rw [if_pos hty, if_pos hty]
        · rw [if_neg hty, if_neg hty]
          exact ih g _ (by omega) (by omega)
      · rw [if_neg hguard, if_neg hguard]

theorem extLoop_stop {data : List Nat} {idx endP : Nat} (h : ¬ idx + 4 ≤ endP) :
    extLoop data idx endP = none := by
  unfold extLoop
  cases hf : endP - idx with
  | zero => rfl
  | succ g =>
    simp only [extLoopGo]
    rw [if_neg h]

theorem extLoop_skip {data : List Nat} {idx endP : Nat}
    (hguard : idx + 4 ≤ endP)
    (hty : ¬ int_from_bytes (pySlice data idx (idx + 2)) = 0) :
    extLoop data idx endP =
      extLoop data (idx + 4 + int_from_bytes (pySlice data (idx + 2) (idx + 4))) endP := by
  unfold extLoop
  obtain ⟨g, hg⟩ : ∃ g, endP - idx = g + 1 := ⟨endP - idx - 1, by omega⟩
  rw [hg]
  simp only [extLoopGo]
  rw [if_pos hguard, if_neg hty]
  exact extLoopGo_fuel_irrel data endP g _ _ (by omega) (by omega)

theorem extLoop_sni {data : List Nat} {idx endP : Nat}
    (hguard : idx + 4 ≤ endP)
    (hty : int_from_bytes (pySlice data idx (idx + 2)) = 0) :
    extLoop data idx endP =
      sniExtract (pySlice data (idx + 4)
        (idx + 4 + int_from_bytes (pySlice data (idx + 2) (idx + 4)))) := by
  unfold extLoop
  obtain ⟨g, hg⟩ : ∃ g, endP - idx = g + 1 := ⟨endP - idx - 1, by omega⟩
  rw [hg]
  simp only [extLoopGo]
  rw [if_pos hguard, if_pos hty]

theorem sniExtract_mkSniPayload (host : List Nat)
    (hutf : validUtf8 host = true) :
    sniExtract (mkSniPayload host) = some host := by
  have h2 : (mkSniPayload host)[2]? = some 0 := by
    have hd : (mkSniPayload host).drop 2 = 0 :: (enc2 host.length ++ host) := by
      have := drop_at (mkSniPayload host) (enc2 (host.length + 3))
        (0 :: (enc2 host.length ++ host)) 0 2 (by simp [mkSniPayload]) rfl
      simpa using this
    exact byte_at 2 hd
  have hd3 : (mkSniPayload host).drop 3 = enc2 host.length ++ host := by
    have := drop_at (mkSniPayload host)
      (enc2 (host.length + 3) ++ [0]) (enc2 host.length ++ host) 0 3
      (by simp [mkSniPayload, enc2]) (by simp [enc2])
    simpa using this
  have hd5 : (mkSniPayload host).drop 5 = host := by
    have := drop_at (mkSniPayload host)
      (enc2 (host.length + 3) ++ (0 :: enc2 host.length)) host 0 5
      (by simp [mkSniPayload, enc2]) (by simp [enc2])
    simpa using this
  unfold sniExtract
  rw [h2, Option.some_bind, if_pos rfl]
  have hlen : int_from_bytes (pySlice (mkSniPayload host) 3 5) = host.length := by
    have hs : pySlice (mkSniPayload host) 3 5 =
        (List.drop 3 (mkSniPayload host)).take 2 := rfl
    rw [hs, hd3, List.take_left' (length_enc2 _), int_from_bytes_enc2]
  rw [hlen]
  show pyDecode (pySlice (mkSniPayload host) 5 (5 + host.length)) = some host
  have hs5 : pySlice (mkSniPayload host) 5 (5 + host.length) =
      (List.drop 5 (mkSniPayload host)).take host.length := by
    unfold pySlice
    rw [Nat.add_sub_cancel_left]
  rw [hs5, hd5, List.take_length]
  unfold pyDecode
  rw [if_pos hutf]

theorem extLoop_finds_sni (pres : List (Nat × List Nat)) :
    ∀ (data host suf : List Nat) (idx endP : Nat),
      data.drop idx = mkExts pres ++ (mkExt 0 (mkSniPayload host) ++ suf) →
      (∀ tp ∈ pres, tp.1 ≠ 0) →
      idx + (mkExts pres).length + 4 ≤ endP →
      validUtf8 host = true →
      extLoop data idx endP = some host := by
  induction pres with
  | nil =>
    intro data host suf idx endP hdrop hpres hend hutf
    have e0 : data.drop idx =
        enc2 0 ++ (enc2 (mkSniPayload host).length ++ (mkSniPayload host ++ suf)) := by
      simpa [mkExts, mkExt, List.append_assoc] using hdrop
    have hguard : idx + 4 ≤ endP := by
      have : (mkExts ([] : List (Nat × List Nat))).length = 0 := rfl
      omega
    have hty : int_from_bytes (pySlice data idx (idx + 2)) = 0 := by
      rw [slice_at idx 2 e0 (length_enc2 0), int_from_bytes_enc2]
    have hlen2 : int_from_bytes (pySlice data (idx + 2) (idx + 4)) =
        (mkSniPayload host).length := by
      have hd2 : data.drop (idx + 2) =
          enc2 (mkSniPayload host).length ++ (mkSniPayload host ++ suf) :=
        drop_at _ _ _ idx 2 e0 (length_enc2 0)
      have : pySlice data (idx + 2) (idx + 2 + 2) = enc2 (mkSniPayload host).length :=
        slice_at (idx + 2) 2 hd2 (length_enc2 _)
      rw [show idx + 4 = idx + 2 + 2 by omega, this, int_from_bytes_enc2]
    have hext : pySlice data (idx + 4)
        (idx + 4 + int_from_bytes (pySlice data (idx + 2) (idx + 4))) =
        mkSniPayload host := by
      rw [hlen2]
      have hd4 : data.drop (idx + 4) = mkSniPayload host ++ suf := by
        have := drop_at data
          (enc2 0 ++ enc2 (mkSniPayload host).length)
          (mkSniPayload host ++ suf) idx 4
          (by simpa [List.append_assoc] using e0) (by simp [enc2])
        exact this
      exact slice_at (idx + 4) (mkSniPayload host).length hd4 rfl
    rw [extLoop_sni hguard hty, hext, sniExtract_mkSniPayload host hutf]
  | cons hd rest ih =>
    intro data host suf idx endP hdrop hpres hend hutf
    obtain ⟨t, p⟩ := hd
    have e0 : data.drop idx =
        enc2 t ++ (enc2 p.length ++ (p ++
          (mkExts rest ++ (mkExt 0 (mkSniPayload host) ++ suf)))) := by
      simpa [mkExts, mkExt, List.append_assoc] using hdrop
    have hlenc : (mkExts ((t, p) :: rest)).length =
        4 + p.length + (mkExts rest).length := by
      simp [mkExts, mkExt, enc2]
      omega
    have hguard : idx + 4 ≤ endP := by omega
    have hty : int_from_bytes (pySlice data idx (idx + 2)) = t := by
      rw [slice_at idx 2 e0 (length_enc2 t), int_from_bytes_enc2]
    have htne : ¬ int_from_bytes (pySlice data idx (idx + 2)) = 0 := by
      rw [hty]
      exact hpres (t, p) (List.mem_cons_self _ _)
    have hlen2 : int_from_bytes (pySlice data (idx + 2) (idx + 4)) = p.length := by
      have hd2 : data.drop (idx + 2) =
          enc2 p.length ++ (p ++ (mkExts rest ++ (mkExt 0 (mkSniPayload host) ++ suf))) :=
        drop_at _ _ _ idx 2 e0 (length_enc2 t)
      have : pySlice data (idx + 2) (idx + 2 + 2) = enc2 p.length :=
        slice_at (idx + 2) 2 hd2 (length_enc2 _)
      rw [show idx + 4 = idx + 2 + 2 by omega, this, int_from_bytes_enc2]
    rw [extLoop_skip hguard htne, hlen2]
    have hdrop2 : data.drop (idx + (4 + p.length)) =
        mkExts rest ++ (mkExt 0 (mkSniPayload host) ++ suf) := by
      exact drop_at data
        (enc2 t ++ (enc2 p.length ++ p))
        (mkExts rest ++ (mkExt 0 (mkSniPayload host) ++ suf)) idx (4 + p.length)
        (by simpa [List.append_assoc] using e0) (by simp [enc2]; omega)
    rw [show idx + 4 + p.length = idx + (4 + p.length) by omega]
    exact ih data host suf (idx + (4 + p.length)) endP hdrop2
      (fun tp htp => hpres tp (List.mem_cons_of_mem _ htp)) (by omega) hutf

theorem drop_pre {α : Type} (data pre rest : List α) (off : Nat)
    (h : data = pre ++ rest) (hpre : pre.length = off) : data.drop off = rest := by
  rw [h, List.drop_left' hpre]

/-- C1.  For every well-formed TLS ClientHello byte sequence (of at most
1024 bytes) that contains a server-name-indication extension whose first
entry has name-type 0, `extract_sni` returns exactly the hostname
embedded in that extension, byte-for-byte.  Well-formedness is expressed
via the `mkClientHello` builder: the record header carries content type
0x16, the handshake type is 0x01, all length prefixes are consistent,
the SNI extension (type 0) may be preceded by arbitrary extensions of
nonzero type and followed by arbitrary suffix bytes, every stored value
is a byte, and the hostname is valid UTF-8 (so that the source's
`.decode()` succeeds — a hostname that is not decodable text is not a
hostname, and on it the source returns `None`). -/
theorem extract_sni_complete
    (rv hl ver rand sid cs comp host suf exts data : List Nat)
    (pres : List (Nat × List Nat))
    (hrv : rv.length = 4) (hhl : hl.length = 3)
    (hver : ver.length = 2) (hrand : rand.length = 32)
    (hpres : ∀ tp ∈ pres, tp.1 ≠ 0)
    (hhost : validUtf8 host = true)
    (hexts : exts = mkExts pres ++ (mkExt 0 (mkSniPayload host) ++ suf))
    (hdata : data = mkClientHello rv hl ver rand sid cs comp exts)
    (hsize : data.length ≤ 1024)
    (hbytes : ∀ b ∈ data, b < 256) :
    extract_sni data = some host := by
  subst hdata
  have hlen5 : ¬ (mkClientHello rv hl ver rand sid cs comp exts).length < 5 := by
    simp [mkClientHello]
    omega
  have g0 : (mkClientHello rv hl ver rand sid cs comp exts)[0]? = some 0x16 := by
    simp [mkClientHello]
  have e5 : (mkClientHello rv hl ver rand sid cs comp exts).drop 5 =
      0x01 :: (hl ++ (ver ++ (rand ++ (sid.length :: (sid ++ (enc2 cs.length ++
        (cs ++ (comp.length :: (comp ++ (enc2 exts.length ++ exts)))))))))) :=
    drop_pre _ (0x16 :: rv) _ 5
      (by simp [mkClientHello]) (by simp [hrv])
  have g5 : (mkClientHello rv hl ver rand sid cs comp exts)[5]? = some 0x01 :=
    byte_at 5 e5
  have e43 : (mkClientHello rv hl ver rand sid cs comp exts).drop 43 =
      sid.length :: (sid ++ (enc2 cs.length ++ (cs ++ (comp.length ::
        (comp ++ (enc2 exts.length ++ exts)))))) :=
    drop_pre _ (0x16 :: (rv ++ (0x01 :: (hl ++ (ver ++ rand))))) _ 43
      (by simp [mkClientHello]) (by simp [hrv, hhl, hver, hrand])
  have g43 : (mkClientHello rv hl ver rand sid cs comp exts)[43]? = some sid.length :=
    byte_at 43 e43
  have eI1 : (mkClientHello rv hl ver rand sid cs comp exts).drop (43 + 1 + sid.length) =
      enc2 cs.length ++ (cs ++ (comp.length :: (comp ++ (enc2 exts.length ++ exts)))) :=
    drop_pre _
      (0x16 :: (rv ++ (0x01 :: (hl ++ (ver ++ (rand ++ (sid.length :: sid))))))) _
      (43 + 1 + sid.length)
      (by simp [mkClientHello]) (by simp [hrv, hhl, hver, hrand]; omega)
  have hcs : pySlice (mkClientHello rv hl ver rand sid cs comp exts)
      (43 + 1 + sid.length) (43 + 1 + sid.length + 2) = enc2 cs.length :=
    slice_at (43 + 1 + sid.length) 2 eI1 (length_enc2 _)
  have eI2 : (mkClientHello rv hl ver rand sid cs comp exts).drop
      (43 + 1 + sid.length + 2 + cs.length) =
      comp.length :: (comp ++ (enc2 exts.length ++ exts)) :=
    drop_pre _
      (0x16 :: (rv ++ (0x01 :: (hl ++ (ver ++ (rand ++ (sid.length ::
        (sid ++ (enc2 cs.length ++ cs))))))))) _
      (43 + 1 + sid.length + 2 + cs.length)
      (by simp [mkClientHello, enc2]) (by simp [hrv, hhl, hver, hrand, enc2]; omega)
  have gComp : (mkClientHello rv hl ver rand sid cs comp exts)[43 + 1 + sid.length + 2
      + cs.length]? = some comp.length :=
    byte_at _ eI2
  have eI3 : (mkClientHello rv hl ver rand sid cs comp exts).drop
      (43 + 1 + sid.length + 2 + cs.length + 1 + comp.length) =
      enc2 exts.length ++ exts :=
    drop_pre _
      (0x16 :: (rv ++ (0x01 :: (hl ++ (ver ++ (rand ++ (sid.length ::
        (sid ++ (enc2 cs.length ++ (cs ++ (comp.length :: comp))))))))))) _
      (43 + 1 + sid.length + 2 + cs.length + 1 + comp.length)
      (by simp [mkClientHello, enc2]) (by simp [hrv, hhl, hver, hrand, enc2]; omega)
  have hext : pySlice (mkClientHello rv hl ver rand sid cs comp exts)
      (43 + 1 + sid.length + 2 + cs.length + 1 + comp.length)
      (43 + 1 + sid.length + 2 + cs.length + 1 + comp.length + 2) = enc2 exts.length :=
    slice_at _ 2 eI3 (length_enc2 _)
  have eI4 : (mkClientHello rv hl ver rand sid cs comp exts).drop
      (43 + 1 + sid.length + 2 + cs.length + 1 + comp.length + 2) =
      mkExts pres ++ (mkExt 0 (mkSniPayload host) ++ suf) := by
    have h4 : (mkClientHello rv hl ver rand sid cs comp exts).drop
        (43 + 1 + sid.length + 2 + cs.length + 1 + comp.length + 2) = exts :=
      drop_pre _
        (0x16 :: (rv ++ (0x01 :: (hl ++ (ver ++ (rand ++ (sid.length ::
          (sid ++ (enc2 cs.length ++ (cs ++ (comp.length ::
            (comp ++ enc2 exts.length)))))))))))) _
        (43 + 1 + sid.length + 2 + cs.length + 1 + comp.length + 2)
        (by simp [mkClientHello, enc2]) (by simp [hrv, hhl, hver, hrand, enc2]; omega)
    rw [h4, hexts]
  have hlenExts := congrArg List.length hexts
  simp [mkExt, mkSniPayload, enc2] at hlenExts
  unfold extract_sni
  rw [if_neg hlen5]
  simp only [g0, g5, g43, Option.some_bind]
  simp only [if_true]
  rw [hcs, int_from_bytes_enc2]
  simp only [gComp, Option.some_bind]
  rw [hext, int_from_bytes_enc2]
  exact extLoop_finds_sni pres _ host suf _ _ eI4 hpres (by omega) hhost

/-- Witness for C1: `extract_sni` recovers `example.com` from a concrete
well-formed ClientHello. -/
theorem extract_sni_complete_witness : extract_sni goodHello = some goodHost :=
  extract_sni_complete [3, 1, 0, 100] [0, 0, 96] [3, 3] (List.replicate 32 7) [] [19, 1] [0]
    goodHost [] (mkExt 0 (mkSniPayload goodHost)) goodHello []
    (by decide) (by decide) (by decide) (by decide)
    (by intro tp htp; cases htp)
    (by decide)
    (by simp [mkExts])
    rfl
    (by decide)
    (by decide)

/-! Fail-closed lemmas for `extract_sni` (toward C2). -/

theorem pySlice_nil_of_drop_nil {data : List Nat} {a b : Nat}
    (h : data.drop a = []) : pySlice data a b = [] := by
  unfold pySlice
  rw [h]
  exact List.take_nil

theorem extract_sni_none_of_bad_b0 {data : List Nat}
    (h0 : ¬ data[0]? = some 0x16) : extract_sni data = none := by
  unfold extract_sni
  by_cases hlen : data.length < 5
  · rw [if_pos hlen]
  · rw [if_neg hlen]
    cases hb : data[0]? with
    | none => rfl
    | some b =>
      have hbne : ¬ b = 0x16 := by
        intro he
        exact h0 (by rw [hb, he])
      simp only [hb, Option.some_bind]
      rw [if_neg hbne]

theorem extract_sni_none_of_cs_overrun {data : List Nat} {s : Nat}
    (h0 : data[0]? = some 0x16) (h5 : data[5]? = some 0x01)
    (h43 : data[43]? = some s)
    (hov : data.length <
      43 + 1 + s + 2 + int_from_bytes (pySlice data (43 + 1 + s) (43 + 1 + s + 2))) :
    extract_sni data = none := by
  have hlen5 : ¬ data.length < 5 := by
    have := length_ge_of_byte_at h5
    omega
  unfold extract_sni
  rw [if_neg hlen5]
  simp only [h0, h5, h43, Option.some_bind]
  simp only [if_true]
  rw [List.getElem?_eq_none (by omega)]
  rfl

theorem extract_sni_none_of_sid_overrun {data : List Nat} {s : Nat}
    (h0 : data[0]? = some 0x16) (h5 : data[5]? = some 0x01)
    (h43 : data[43]? = some s) (hov : data.length < 43 + 1 + s) :
    extract_sni data = none :=
  extract_sni_none_of_cs_overrun h0 h5 h43 (by omega)

theorem extract_sni_none_of_comp_overrun {data : List Nat} {s c : Nat}
    (h0 : data[0]? = some 0x16) (h5 : data[5]? = some 0x01)
    (h43 : data[43]? = some s)
    (hc : data[43 + 1 + s + 2 +
      int_from_bytes (pySlice data (43 + 1 + s) (43 + 1 + s + 2))]? = some c)
    (hov : data.length <
      43 + 1 + s + 2 + int_from_bytes (pySlice data (43 + 1 + s) (43 + 1 + s + 2))
        + 1 + c) :
    extract_sni data = none := by
  have hlen5 : ¬ data.length < 5 := by
    have := length_ge_of_byte_at h5
    omega
  unfold extract_sni
  rw [if_neg hlen5]
  simp only [h0, h5, h43, Option.some_bind]
  simp only [if_true]
  simp only [hc, Option.some_bind]
  have hdropnil : data.drop (43 + 1 + s + 2 +
      int_from_bytes (pySlice data (43 + 1 + s) (43 + 1 + s + 2)) + 1 + c) = [] :=
    List.drop_eq_nil_iff.mpr (by omega)
  rw [pySlice_nil_of_drop_nil hdropnil]
  have hz : int_from_bytes [] = 0 := rfl
  rw [hz]
  exact extLoop_stop (by omega)

theorem handler_drops_on_none {msg : List Nat} (h : extract_sni msg = none) :
    outboundDial (handle_connection msg) = none := by
  unfold handle_connection
  by_cases he : msg.isEmpty = true
  · rw [if_pos he]
    rfl
  · rw [if_neg he, h]
    rfl

/-- C2 counterexample: on `sniTruncInput` the declared extensions-total
length (200 at offsets 47-48), the declared SNI extension-entry length
(50 at offsets 51-52) and the declared server-name length (100 at
offsets 56-57) each run past the end of the 59-byte input, yet
`extract_sni` does not return `none`: it returns the silently truncated
hostname `[97]`.  This falsifies the claim that any declared length
field running past the end of the peeked data makes `extract_sni`
return `None`. -/
theorem extract_sni_truncation_cex :
    extract_sni sniTruncInput = some [97] ∧
    sniTruncInput.length = 59 ∧
    int_from_bytes (pySlice sniTruncInput 47 49) = 200 ∧ 59 < 49 + 200 ∧
    int_from_bytes (pySlice sniTruncInput 51 53) = 50 ∧ 59 < 53 + 50 ∧
    int_from_bytes (pySlice sniTruncInput 56 58) = 100 ∧ 59 < 58 + 100 ∧
    ¬ extract_sni sniTruncInput = none := by decide

/-- C2 (amended).  `extract_sni` returns `none` whenever byte 0 is not
0x16, and whenever the declared session-id, cipher-suite-list, or
compression-methods length field would run past the end of the peeked
data; and whenever `extract_sni` returns `none` the connection handler
drops the connection without dialing any outbound destination.  (The
original claim also asserted this for the extensions-total,
extension-entry and server-name length fields; `extract_sni_truncation_cex`
shows those can instead produce a truncated hostname.)  Offsets: with
`s` the session-id length byte at index 43, the cipher-suite list length
is read at `43 + 1 + s`, and the compression-methods length byte `c` is
read at `43 + 1 + s + 2 +` the cipher-suite length. -/
theorem extract_sni_fail_closed :
    (∀ data : List Nat, ¬ data[0]? = some 0x16 → extract_sni data = none) ∧
    (∀ (data : List Nat) (s : Nat), data[0]? = some 0x16 → data[5]? = some 0x01 →
      data[43]? = some s → data.length < 43 + 1 + s → extract_sni data = none) ∧
    (∀ (data : List Nat) (s : Nat), data[0]? = some 0x16 → data[5]? = some 0x01 →
      data[43]? = some s →
      data.length <
        43 + 1 + s + 2 + int_from_bytes (pySlice data (43 + 1 + s) (43 + 1 + s + 2)) →
      extract_sni data = none) ∧
    (∀ (data : List Nat) (s c : Nat), data[0]? = some 0x16 → data[5]? = some 0x01 →
      data[43]? = some s →
      data[43 + 1 + s + 2 +
        int_from_bytes (pySlice data (43 + 1 + s) (43 + 1 + s + 2))]? = some c →
      data.length <
        43 + 1 + s + 2 + int_from_bytes (pySlice data (43 + 1 + s) (43 + 1 + s + 2))
          + 1 + c →
      extract_sni data = none) ∧
    (∀ msg : List Nat, extract_sni msg = none →
      outboundDial (handle_connection msg) = none) :=
  ⟨fun _ h0 => extract_sni_none_of_bad_b0 h0,
   fun _ _ h0 h5 h43 hov => extract_sni_none_of_sid_overrun h0 h5 h43 hov,
   fun _ _ h0 h5 h43 hov => extract_sni_none_of_cs_overrun h0 h5 h43 hov,
   fun _ _ _ h0 h5 h43 hc hov => extract_sni_none_of_comp_overrun h0 h5 h43 hc hov,
   fun _ h => handler_drops_on_none h⟩

/-- Witness for C2 (amended): concrete inputs for each conjunct — a
non-0x16 first byte, a session-id overrun, a cipher-suite overrun, a
compression-methods overrun, and the drop of an un-extractable
connection. -/
theorem extract_sni_fail_closed_witness :
    extract_sni [0] = none ∧
    extract_sni ([22, 0, 0, 0, 0, 1] ++ (List.replicate 37 0 ++ [200])) = none ∧
    extract_sni ([22, 0, 0, 0, 0, 1] ++ (List.replicate 37 0 ++ [0, 255, 255])) = none ∧
    extract_sni ([22, 0, 0, 0, 0, 1] ++ (List.replicate 37 0 ++ [0, 0, 0, 250])) = none ∧
    outboundDial (handle_connection []) = none :=
  ⟨extract_sni_fail_closed.1 [0] (by decide),
   extract_sni_fail_closed.2.1 _ 200 (by decide) (by decide) (by decide) (by decide),
   extract_sni_fail_closed.2.2.1 _ 0 (by decide) (by decide) (by decide) (by decide),
   extract_sni_fail_closed.2.2.2.1 _ 0 250 (by decide) (by decide) (by decide) (by decide)
     (by decide),
   extract_sni_fail_closed.2.2.2.2 [] (by decide)⟩

/-- C3.  Whenever extraction succeeds with hostname `host`, the proxy
handler opens exactly one outbound stream connection to `(host, 443)`,
writes the entire originally peeked byte sequence to that outbound
connection before any other bytes, and only then starts relaying the two
streams (the `forwarded` outcome records exactly this trace). -/
theorem proxy_forwards_on_sni (msg host : List Nat)
    (h : extract_sni msg = some host) :
    handle_connection msg = ProxyOutcome.forwarded host 443 msg := by
  have hne : msg.isEmpty = false := by
    cases msg with
    | nil =>
      have hnone : extract_sni [] = none := by decide
      rw [hnone] at h
      exact Option.noConfusion h
    | cons a t => rfl
  unfold handle_connection
  rw [hne]
  simp only [Bool.false_eq_true, if_false, h]

/-- Witness for C3: the concrete ClientHello `goodHello` is forwarded to
`(example.com, 443)` with the peeked bytes replayed first. -/
theorem proxy_forwards_on_sni_witness :
    handle_connection goodHello = ProxyOutcome.forwarded goodHost 443 goodHello :=
  proxy_forwards_on_sni goodHello goodHost (by decide)

/-- C4.  For every `/talk` request whose decoded nonce is shorter than
8 bytes, the handler returns the response
`{"error": "invalid nonce, must be at least 8 characters long"}` and no
decryption of the ciphertext is attempted. -/
theorem talk_rejects_short_nonce (nonce publicKey data : List Nat)
    (h : nonce.length < 8) :
    talk_to_ai nonce publicKey data =
      TalkOutcome.errorResponse "invalid nonce, must be at least 8 characters long" ∧
    ∀ pk2 n2 d2, ¬ talk_to_ai nonce publicKey data =
      TalkOutcome.decryptionAttempted pk2 n2 d2 := by
  constructor
  · unfold talk_to_ai
    rw [if_pos h]
  · intro pk2 n2 d2 hcontra
    unfold talk_to_ai at hcontra
    rw [if_pos h] at hcontra
    exact TalkOutcome.noConfusion hcontra

/-- Witness for C4: a request with a 4-byte nonce yields exactly that
error response. -/
theorem talk_rejects_short_nonce_witness :
    talk_to_ai [171, 205, 239, 1] [7] [9] =
      TalkOutcome.errorResponse "invalid nonce, must be at least 8 characters long" :=
  (talk_rejects_short_nonce [171, 205, 239, 1] [7] [9] (by decide)).1

/-- C9.  If the first read on a freshly accepted inbound connection
returns zero bytes, the proxy handler closes the inbound connection and
returns without attempting SNI extraction and without opening any
outbound connection. -/
theorem empty_peek_closes :
    handle_connection [] = ProxyOutcome.closedNoData ∧
    outboundDial (handle_connection []) = none := by decide

/-- C6.  The relay's per-direction `pipe` treats the `ENOTCONN`,
`ECONNRESET` and `EPIPE` transport conditions (and `ConnectionResetError`
/ `CancelledError`) as normal termination with nothing re-raised,
re-raises any other OS error, and on every termination path runs the
writer-closing `finally` block whose own errors are swallowed (the
outcome never depends on whether the close raises). -/
theorem pipe_benign_errnos (cr cr2 : Bool) (e : Nat) (rest s : List ReadEvent)
    (w : List Nat) :
    pipeRun cr (ReadEvent.osError e :: rest) w =
      PipeOutcome.closed w
        (if e = ENOTCONN ∨ e = ECONNRESET ∨ e = EPIPE then none else some e) ∧
    pipeRun cr (ReadEvent.connReset :: rest) w = PipeOutcome.closed w none ∧
    pipeRun cr (ReadEvent.cancelled :: rest) w = PipeOutcome.closed w none ∧
    pipeRun cr s w = pipeRun cr2 s w := by
  refine ⟨?_, rfl, rfl, ?_⟩
  · unfold pipeRun runFinally
    by_cases hb : e = ENOTCONN ∨ e = ECONNRESET ∨ e = EPIPE
    · rw [if_pos hb, if_pos hb]
    · rw [if_neg hb, if_neg hb]
  · induction s generalizing w with
    | nil => rfl
    | cons ev rest2 ih =>
      cases ev with
      | chunk d =>
        unfold pipeRun
        by_cases hd : d.isEmpty = true
        · rw [if_pos hd, if_pos hd]
          rfl
        · rw [if_neg hd, if_neg hd]
          exact ih _
      | cancelled => rfl
      | connReset => rfl
      | osError e2 => rfl

theorem startWorkersGo_spec (fileno : Nat) :
    ∀ (k : Nat) (st : List SpawnedWorker × Nat),
      (startWorkersGo k fileno st).1.length = st.1.length + k ∧
      ((startWorkersGo k fileno st).1.all fun w => w.recvHandle == fileno) =
        (st.1.all fun w => w.recvHandle == fileno) := by
  intro k
  induction k with
  | zero => intro st; exact ⟨rfl, rfl⟩
  | succ n ih =>
    intro st
    constructor
    · have h := (ih (start_one_worker fileno st)).1
      unfold startWorkersGo
      rw [h]
      simp [start_one_worker]
      omega
    · have h := (ih (start_one_worker fileno st)).2
      unfold startWorkersGo
      rw [h]
      simp [start_one_worker]

/-- C7.  Constructing the Supervisor in vsock mode forces the worker
count to exactly 1 regardless of the configured `process_num` argument
(and selects the vsock family), while stream-socket (TCP) mode uses the
configured worker count; `start_workers` then spawns exactly that many
workers, every one of which receives the single shared listening
handle. -/
theorem vsock_forces_single_worker (port n fileno : Nat) (b : Bool) :
    (serverInit port n true).process_num = 1 ∧
    (serverInit port n true).family = SockFamily.af_vsock ∧
    (serverInit port n false).process_num = n ∧
    (serverInit port n false).family = SockFamily.af_inet ∧
    (start_workers (serverInit port n true) fileno).length = 1 ∧
    (start_workers (serverInit port n false) fileno).length = n ∧
    ((start_workers (serverInit port n b) fileno).all
      fun w => w.recvHandle == fileno) = true := by
  refine ⟨rfl, rfl, rfl, rfl, ?_, ?_, ?_⟩
  · have h := (startWorkersGo_spec fileno 1 ([], 0)).1
    simpa [start_workers, serverInit] using h
  · have h := (startWorkersGo_spec fileno n ([], 0)).1
    simpa [start_workers, serverInit] using h
  · cases b with
    | true =>
      have h := (startWorkersGo_spec fileno 1 ([], 0)).2
      simpa [start_workers, serverInit] using h
    | false =>
      have h := (startWorkersGo_spec fileno n ([], 0)).2
      simpa [start_workers, serverInit] using h

/-- C8 counterexample: for concrete key material, the mock attestation
document produced by `MockFixedKeyManager.generate_attestation` contains
exactly the two fields `nonce` and `public_key` — it has no
hash-of-public-key field and carries no `mock` flag inside the
structure, contradicting the claim that it contains the same three
fields as the hardware document together with an explicit mock flag. -/
theorem mock_attestation_fields_cex :
    (mock_generate_attestation [222, 173, 190, 239, 0, 1, 2, 3] [48, 89]).map Prod.fst =
      ["nonce", "public_key"] ∧
    ((mock_generate_attestation [222, 173, 190, 239, 0, 1, 2, 3] [48, 89]).map
      Prod.fst).length = 2 ∧
    ¬ "mock" ∈ (mock_generate_attestation [222, 173, 190, 239, 0, 1, 2, 3] [48, 89]).map
      Prod.fst := by
  refine ⟨rfl, rfl, ?_⟩
  decide

/-- C8 (amended).  In mock (non-hardware) mode the attestation document
is a structure with exactly two fields — the freshness nonce and the
public key — with no hash-of-public-key field and no flag inside the
structure; the `mock: true` marker is added by the `GET /attestation`
route, which includes it exactly when the process is not in hardware
(vsock) mode. -/
theorem mock_attestation_marker (nonce pub : List Nat)
    (doc : List (String × List Nat)) :
    (mock_generate_attestation nonce pub).map Prod.fst = ["nonce", "public_key"] ∧
    mock_generate_attestation nonce pub = [("nonce", nonce), ("public_key", pub)] ∧
    attestation_route false doc = { attestation_doc := doc, mock := some true } ∧
    attestation_route true doc = { attestation_doc := doc, mock := none } :=
  ⟨rfl, rfl, rfl, rfl⟩

/-! Lemmas about the monitor sweep (toward C5 and C10). -/

theorem eraseIdx_append_cons {α : Type} (A B : List α) (d : α) :
    (A ++ d :: B).eraseIdx A.length = A ++ B := by
  induction A with
  | nil => rfl
  | cons a A2 ih =>
    show a :: ((A2 ++ d :: B).eraseIdx A2.length) = a :: (A2 ++ B)
    rw [ih]

theorem monitorGo_all_alive (running : Nat → Bool) :
    ∀ (fuel : Nat) (procs : List WorkerProc) (i fresh : Nat),
      (∀ w ∈ procs, w.alive = true) →
      monitorGo running fuel procs i fresh = procs := by
  intro fuel
  induction fuel with
  | zero => intro procs i fresh _; rfl
  | succ f ih =>
    intro procs i fresh h
    unfold monitorGo
    by_cases hi : i < procs.length
    · rw [dif_pos hi]
      have halive : procs[i].alive = true := h _ (List.getElem_mem hi)
      rw [if_neg (by simp [halive])]
      exact ih procs (i + 1) fresh h
    · rw [dif_neg hi]

theorem monitorGo_skip (running : Nat → Bool) :
    ∀ (A rest procs : List WorkerProc) (i fuel fresh : Nat),
      procs.drop i = A ++ rest →
      (∀ w ∈ A, w.alive = true) →
      monitorGo running (A.length + fuel) procs i fresh =
        monitorGo running fuel procs (i + A.length) fresh := by
  intro A
  induction A with
  | nil =>
    intro rest procs i fuel fresh hdrop hA
    simp
  | cons a A2 ih =>
    intro rest procs i fuel fresh hdrop hA
    have h0 : procs[i]? = some a := byte_at i (by simpa using hdrop)
    have hi : i < procs.length := length_ge_of_byte_at h0
    have hget : procs[i] = a := by
      obtain ⟨h2, he⟩ := List.getElem?_eq_some.mp h0
      exact he
    have halive : a.alive = true := hA a (List.mem_cons_self a A2)
    have hfuel : (a :: A2).length + fuel = (A2.length + fuel) + 1 := by
      simp only [List.length_cons]
      omega
    rw [hfuel]
    rw [show monitorGo running (A2.length + fuel + 1) procs i fresh =
        if h : i < procs.length then
          if (procs.get ⟨i, h⟩).alive = false ∧ running i = true then
            monitorGo running (A2.length + fuel) (procs.eraseIdx i ++ [spawnWorker fresh])
              (i + 1) (fresh + 1)
          else monitorGo running (A2.length + fuel) procs (i + 1) fresh
        else procs from by rw [monitorGo]]
    rw [dif_pos hi]
    simp only [List.get_eq_getElem, hget]
    rw [if_neg (by simp [halive])]
    have hdrop2 : procs.drop (i + 1) = A2 ++ rest :=
      drop_at _ [a] _ i 1 (by simpa using hdrop) rfl
    rw [ih rest procs (i + 1) fuel fresh hdrop2
      (fun w hw => hA w (List.mem_cons_of_mem a hw))]
    have hidx : i + (a :: A2).length = i + 1 + A2.length := by
      simp only [List.length_cons]
      omega
    rw [hidx]

theorem monitorGo_not_running (running : Nat → Bool)
    (hrun : ∀ j, running j = false) :
    ∀ (fuel : Nat) (procs : List WorkerProc) (i fresh : Nat),
      monitorGo running fuel procs i fresh = procs := by
  intro fuel
  induction fuel with
  | zero => intro procs i fresh; rfl
  | succ f ih =>
    intro procs i fresh
    unfold monitorGo
    by_cases hi : i < procs.length
    · rw [dif_pos hi]
      rw [if_neg (by simp [hrun i])]
      exact ih procs (i + 1) fresh
    · rw [dif_neg hi]

/-- C5.  While the Supervisor's `running` flag is true, one monitor
polling pass over a roster with exactly one dead worker removes that
worker, creates exactly one (alive) replacement, and leaves the roster
at exactly the configured target count with every worker alive. -/
theorem monitor_replaces_dead_worker (A B : List WorkerProc) (d : WorkerProc)
    (fresh : Nat)
    (hA : ∀ w ∈ A, w.alive = true) (hB : ∀ w ∈ B, w.alive = true)
    (hd : d.alive = false) :
    monitorPass (fun _ => true) (A ++ d :: B) fresh =
      A ++ (B ++ [spawnWorker fresh]) ∧
    (monitorPass (fun _ => true) (A ++ d :: B) fresh).length = (A ++ d :: B).length ∧
    ∀ w ∈ monitorPass (fun _ => true) (A ++ d :: B) fresh, w.alive = true := by
  have hmain : monitorPass (fun _ => true) (A ++ d :: B) fresh =
      A ++ (B ++ [spawnWorker fresh]) := by
    unfold monitorPass
    have hlen : (A ++ d :: B).length = A.length + (B.length + 1) := by simp
    rw [hlen]
    rw [monitorGo_skip (fun _ => true) A (d :: B) (A ++ d :: B) 0 (B.length + 1) fresh
      (by simp) hA]
    simp only [Nat.zero_add]
    have hi : A.length < (A ++ d :: B).length := by simp
    have hget : (A ++ d :: B)[A.length] = d := by
      have h0 : (A ++ d :: B)[A.length]? = some d :=
        byte_at A.length (drop_pre _ A _ A.length rfl rfl)
      obtain ⟨h2, he⟩ := List.getElem?_eq_some.mp h0
      exact he
    unfold monitorGo
    rw [dif_pos hi]
    simp only [List.get_eq_getElem, hget]
    rw [if_pos ⟨hd, by trivial⟩]
    rw [eraseIdx_append_cons]
    have halive : ∀ w ∈ (A ++ B) ++ [spawnWorker fresh], w.alive = true := by
      intro w hw
      rcases List.mem_append.mp hw with hw1 | hw2
      · rcases List.mem_append.mp hw1 with ha | hb
        · exact hA w ha
        · exact hB w hb
      · have heq : w = spawnWorker fresh := List.mem_singleton.mp hw2
        rw [heq]
        rfl
    rw [monitorGo_all_alive (fun _ => true) B.length ((A ++ B) ++ [spawnWorker fresh])
      (A.length + 1) (fresh + 1) halive]
    simp
  refine ⟨hmain, ?_, ?_⟩
  · rw [hmain]
    simp
  · intro w hw
    rw [hmain] at hw
    rcases List.mem_append.mp hw with ha | hw2
    · exact hA w ha
    rcases List.mem_append.mp hw2 with hb | hs
    · exact hB w hb
    · have heq : w = spawnWorker fresh := List.mem_singleton.mp hs
      rw [heq]
      rfl

/-- Witness for C5: a three-worker roster whose middle worker is dead is
restored to three alive workers in one pass. -/
theorem monitor_replaces_dead_worker_witness :
    monitorPass (fun _ => true)
      ([{ pid := 1, alive := true }] ++ { pid := 2, alive := false } ::
        [{ pid := 3, alive := true }]) 9 =
      [{ pid := 1, alive := true }] ++
        ([{ pid := 3, alive := true }] ++ [spawnWorker 9]) :=
  (monitor_replaces_dead_worker [{ pid := 1, alive := true }]
    [{ pid := 3, alive := true }] { pid := 2, alive := false } 9
    (by decide) (by decide) rfl).1

/-- C10.  Once the Supervisor's `running` flag is false at every
detection point, a monitor pass never replaces a dead worker: the roster
is returned unchanged, so no respawn can race with shutdown's
terminate-and-join sequence. -/
theorem no_respawn_after_shutdown (running : Nat → Bool)
    (procs : List WorkerProc) (fresh : Nat)
    (hrun : ∀ j, running j = false) :
    monitorPass running procs fresh = procs :=
  monitorGo_not_running running hrun procs.length procs 0 fresh

/-- Witness for C10: with the flag down, a roster containing a dead
worker is left untouched. -/
theorem no_respawn_after_shutdown_witness :
    monitorPass (fun _ => false)
      [{ pid := 5, alive := false }, { pid := 6, alive := true }] 9 =
      [{ pid := 5, alive := false }, { pid := 6, alive := true }] :=
  no_respawn_after_shutdown (fun _ => false)
    [{ pid := 5, alive := false }, { pid := 6, alive := true }] 9 (fun _ => rfl)

end Sparsity

